import Mathlib

/-!
Verification of the schema-inference, normalization and aggregation core of
`bot.py` (congress-trades-bot): header resolution (`_guess_header_map`),
HTML-table extraction (`_extract_from_html`), fallback-dataset normalization
(`load_public_fallback`), and the two aggregations (`group_daily`,
`trend_30d`).  Python/pandas string and table operations are embedded as
executable functions on `List Char` / `List String`; dates are embedded as
`Option Nat` (a null date is `none`).
-/

namespace CongressBot

/-! ### Characters and strings -/

/-- Model of Python `str.upper` on one ASCII character. -/
def upChar (c : Char) : Char :=
  if 97 ≤ c.toNat ∧ c.toNat ≤ 122 then Char.ofNat (c.toNat - 32) else c

/-- Model of Python `str.lower` on one ASCII character. -/
def lowChar (c : Char) : Char :=
  if 65 ≤ c.toNat ∧ c.toNat ≤ 90 then Char.ofNat (c.toNat + 32) else c

/-- The characters kept by the cleaning regex replace of `[^A-Z.]` with the
empty string (bot.py lines 81 and 139): capital letters and the dot. -/
def isTickerChar (c : Char) : Bool :=
  (65 ≤ c.toNat && c.toNat ≤ 90) || c.toNat == 46

/-- `astype(str).str.upper().str.replace(r"[^A-Z.]", "", regex=True)` applied
to one already-string cell (bot.py lines 81 and 139). -/
def cleanTicker (s : String) : String :=
  ((s.toList.map upChar).filter isTickerChar).asString

/-- ASCII whitespace, the model of the regex class of whitespace characters
and of the characters removed by Python `str.strip`. -/
def isWS (c : Char) : Bool :=
  c == ' ' || c == '\t' || c == '\n' || c == '\r' || c == '\x0b' || c == '\x0c'

/-- Remove leading and trailing whitespace characters from a list. -/
def trimChars (l : List Char) : List Char :=
  ((l.dropWhile isWS).reverse.dropWhile isWS).reverse

/-- Model of Python `str.strip()` (bot.py lines 82 and 140). -/
def strip (s : String) : String :=
  (trimChars s.toList).asString

/-- Helper of `collapseWS`: the flag records whether the previous character
belonged to a whitespace run that has already emitted its single space. -/
def collapseWSAux : Bool → List Char → List Char
  | _, [] => []
  | prevWS, c :: cs =>
    if isWS c then
      if prevWS then collapseWSAux true cs
      else ' ' :: collapseWSAux true cs
    else c :: collapseWSAux false cs

/-- Replace each maximal whitespace run by a single space, modelling
substitution of a single space for each whitespace run (bot.py line 32). -/
def collapseWS (l : List Char) : List Char :=
  collapseWSAux false l

/-- The header normalization of bot.py line 32: collapse whitespace runs,
strip, lowercase. -/
def normHeader (s : String) : String :=
  ((trimChars (collapseWS s.toList)).map lowChar).asString

/-- Model of Python `str.lower()` on a whole string (bot.py line 64). -/
def lowStr (s : String) : String :=
  (s.toList.map lowChar).asString

/-- Prefix test on character lists. -/
def isPrefixL : List Char → List Char → Bool
  | [], _ => true
  | _ :: _, [] => false
  | a :: as, b :: bs => a == b && isPrefixL as bs

/-- Python substring test `needle in hay`, on character lists. -/
def containsSub (needle : List Char) : List Char → Bool
  | [] => isPrefixL needle []
  | c :: t => isPrefixL needle (c :: t) || containsSub needle t

/-- `any(key in t for key in keys)` (bot.py line 44). -/
def hasAlias (t : String) (keys : List String) : Bool :=
  keys.any (fun k => containsSub k.toList t.toList)

/-- Case-insensitive regex search for `buy|purchase` (bot.py lines 84, 141). -/
def containsBuy (ty : String) : Bool :=
  containsSub "buy".toList (ty.toList.map lowChar) ||
  containsSub "purchase".toList (ty.toList.map lowChar)

/-- Case-insensitive regex search for `sell|sale` (bot.py lines 85, 142). -/
def containsSell (ty : String) : Bool :=
  containsSub "sell".toList (ty.toList.map lowChar) ||
  containsSub "sale".toList (ty.toList.map lowChar)

/-- Split a character list at every occurrence of a separator. -/
def splitOnChar (sep : Char) : List Char → List (List Char)
  | [] => [[]]
  | c :: cs =>
    let r := splitOnChar sep cs
    if c == sep then [] :: r
    else
      match r with
      | h :: t => (c :: h) :: t
      | [] => [[c]]

/-- Decimal reading of an all-digit character list, else `none`. -/
def digitsToNat? (l : List Char) : Option Nat :=
  if l.isEmpty then none
  else if l.all (fun c => 48 ≤ c.toNat && c.toNat ≤ 57) then
    some (l.foldl (fun acc c => acc * 10 + (c.toNat - 48)) 0)
  else none

/-- Model of the date parser `pd.to_datetime(_, errors="coerce")` restricted
to ISO `YYYY-MM-DD` inputs: a parsed date becomes the number
`y * 10000 + m * 100 + d`; any unparsable value becomes `none` (null). -/
def parseDate (s : String) : Option Nat :=
  match splitOnChar '-' s.toList with
  | [y, m, d] =>
    match digitsToNat? y, digitsToNat? m, digitsToNat? d with
    | some yn, some mn, some dn =>
      if 1 ≤ mn ∧ mn ≤ 12 ∧ 1 ≤ dn ∧ dn ≤ 31 then
        some (yn * 10000 + mn * 100 + dn)
      else none
    | _, _, _ => none
  | _ => none

/-- `astype(str)` on one optional cell: pandas renders a missing value (NaN)
as the string literal of lowercase nan. -/
def asStr : Option String → String
  | some s => s
  | none => "nan"

/-! ### Ticker cleaning facts (claim C7) -/

theorem up_fix {c : Char} (h : isTickerChar c = true) : upChar c = c := by
  have h' : (65 ≤ c.toNat ∧ c.toNat ≤ 90) ∨ c.toNat = 46 := by
    simpa [isTickerChar] using h
  unfold upChar
  rw [if_neg (by omega)]

/-! ### The canonical record -/

/-- One canonical trade-disclosure record, the row type of the cleaned
dataframes produced by `_extract_from_html` and `load_public_fallback`.
Dates are embedded as `Option Nat`; a null date (`NaT`) is `none`. -/
structure Record where
  ticker : String
  name : String
  company : String
  type : String
  filing_date : Option Nat
  transaction_date : Option Nat
  is_buy : Bool
  is_sell : Bool
deriving DecidableEq, Repr

/-! ### Header resolution (`_guess_header_map`, bot.py lines 31-45) -/

/-- The six canonical fields of the header map. -/
inductive Field where
  | ticker | name | company | type | filing_date | transaction_date
deriving DecidableEq, Repr

/-- The alias lists of the `want` dictionary (bot.py lines 33-40). -/
def wantAliases : Field → List String
  | .ticker => ["ticker", "symbol"]
  | .name => ["politician", "member", "representative", "senator", "name"]
  | .company => ["company", "asset", "asset description"]
  | .type => ["type", "transaction", "transaction type"]
  | .filing_date =>
      ["filing", "disclosure", "filed", "filing date", "disclosure date",
       "date filed"]
  | .transaction_date => ["transaction date", "trade date", "date of transaction"]

/-- The dictionary order of `want`, the inner iteration order of the loop. -/
def fieldList : List Field :=
  [.ticker, .name, .company, .type, .filing_date, .transaction_date]

/-- One step of the loop body of bot.py lines 42-44: given the map so far and
one enumerated normalized header, assign every still-unassigned field whose
alias list matches this header. -/
def hmStep (out : Field → Option Nat) (it : Nat × String) : Field → Option Nat :=
  fun k =>
    match out k with
    | some j => some j
    | none => if hasAlias it.2 (wantAliases k) then some it.1 else none

/-- `_guess_header_map` (bot.py lines 31-45): normalize the header texts,
then scan them left to right, assigning each field the first header that
contains one of its aliases; unassigned fields stay `none` (the -1 of the
source). -/
def guessHeaderMap (th_texts : List String) : Field → Option Nat :=
  ((th_texts.map normHeader).enum).foldl hmStep (fun _ => none)

/-- The position of the first element satisfying a predicate. -/
def firstMatch (p : String → Bool) : List String → Option Nat
  | [] => none
  | t :: ts => if p t then some 0 else (firstMatch p ts).map (· + 1)

theorem hmStep_foldl (k : Field) (l : List String) :
    ∀ (n : Nat) (out : Field → Option Nat),
      ((List.enumFrom n l).foldl hmStep out) k =
        match out k with
        | some j => some j
        | none =>
          (firstMatch (fun t => hasAlias t (wantAliases k)) l).map (· + n) := by
  induction l with
  | nil =>
    intro n out
    cases h : out k <;> simp [firstMatch, h]
  | cons t ts ih =>
    intro n out
    rw [show List.enumFrom n (t :: ts) = (n, t) :: List.enumFrom (n + 1) ts
        from rfl, List.foldl_cons, ih]
    cases h : out k with
    | some j => simp [hmStep, h]
    | none =>
      simp only [hmStep, h, firstMatch]
      by_cases hm : hasAlias t (wantAliases k) = true
      · simp [hm]
      · simp only [Bool.not_eq_true] at hm
        simp only [hm, Bool.false_eq_true, if_false]
        cases hfm : firstMatch (fun t => hasAlias t (wantAliases k)) ts with
        | none => simp [hfm]
        | some i =>
          simp only [hfm, Option.map_some']
          congr 1
          omega

/-- Every field of the resolved header map is the position of the first
normalized header containing one of its aliases, or `none`. -/
theorem guessHeaderMap_eq_firstMatch (hs : List String) (f : Field) :
    guessHeaderMap hs f =
      firstMatch (fun t => hasAlias t (wantAliases f)) (hs.map normHeader) := by
  unfold guessHeaderMap
  rw [show (hs.map normHeader).enum = List.enumFrom 0 (hs.map normHeader)
      from rfl, hmStep_foldl]
  simp

example : guessHeaderMap ["Symbol", "Rep", "Trans Type"] .ticker = some 0 := by decide
example : guessHeaderMap ["Symbol", "Rep", "Trans Type"] .name = none := by decide
example : guessHeaderMap ["Symbol", "Rep", "Trans Type"] .type = some 2 := by decide
example : cleanTicker "BRK.B!" = "BRK.B" := by decide
example : cleanTicker "aapl " = "AAPL" := by decide

/-- C7: ticker cleaning (uppercase, then strip every character outside
`A-Z` and the dot) is idempotent, and maps the three example inputs of the
claim as stated. -/
theorem C7_cleanTicker_idempotent :
    (∀ s : String, cleanTicker (cleanTicker s) = cleanTicker s) ∧
    cleanTicker "AAPL" = "AAPL" ∧ cleanTicker "aapl " = "AAPL" ∧
    cleanTicker "BRK.B!" = "BRK.B" := by
  refine ⟨?_, by decide, by decide, by decide⟩
  intro s
  show ((((((s.toList.map upChar).filter isTickerChar).asString).toList).map
      upChar).filter isTickerChar).asString = _
  have htl : ((((s.toList.map upChar).filter isTickerChar).asString).toList)
      = (s.toList.map upChar).filter isTickerChar := rfl
  rw [htl]
  have hmap : (((s.toList.map upChar).filter isTickerChar).map upChar)
      = ((s.toList.map upChar).filter isTickerChar).map id := by
    apply List.map_congr_left
    intro a ha
    exact up_fix (List.of_mem_filter ha)
  rw [hmap, List.map_id, List.filter_filter]
  congr 1
  apply List.filter_congr
  intro a _
  cases h : isTickerChar a <;> simp [h]

/-- C2 (amended): the resolver assigns every canonical field the position of
the first header whose normalized text contains one of the field's aliases
(`none` when no header does), so headers bearing aliases of ticker, name and
type resolve all three regardless of order, case or whitespace; the list
`["Symbol", "Representative", "Trans Type"]` resolves ticker, name, type to
columns 0, 1, 2. -/
theorem C2_header_resolver :
    (∀ (hs : List String) (f : Field),
      guessHeaderMap hs f =
        firstMatch (fun t => hasAlias t (wantAliases f)) (hs.map normHeader)) ∧
    guessHeaderMap ["Symbol", "Representative", "Trans Type"] .ticker = some 0 ∧
    guessHeaderMap ["Symbol", "Representative", "Trans Type"] .name = some 1 ∧
    guessHeaderMap ["Symbol", "Representative", "Trans Type"] .type = some 2 :=
  ⟨guessHeaderMap_eq_firstMatch, by decide, by decide, by decide⟩

/-- C2 counterexample: on the header list `["Symbol", "Rep", "Trans Type"]`
named by the claim, the resolver leaves `name` unassigned — the header text
of lowercase rep contains none of the name aliases, because matching tests
whether an alias occurs inside the header text, not the converse — while
ticker and type do resolve (to columns 0 and 2). -/
theorem C2_counterexample :
    guessHeaderMap ["Symbol", "Rep", "Trans Type"] .name = none ∧
    hasAlias (normHeader "Rep") (wantAliases .name) = false ∧
    guessHeaderMap ["Symbol", "Rep", "Trans Type"] .ticker = some 0 ∧
    guessHeaderMap ["Symbol", "Rep", "Trans Type"] .type = some 2 :=
  ⟨by decide, by decide, by decide, by decide⟩

/-! ### Table extraction (`_extract_from_html`, bot.py lines 47-87) -/

/-- One parsed HTML table: the rows of its head section, when one exists,
and the remaining rows; each row is the list of its cell texts. -/
structure Table where
  thead : Option (List (List String))
  body : List (List String)
deriving DecidableEq, Repr

/-- All table rows in document order: the head-section rows followed by the
body rows — the result of searching the whole table for rows (line 60). -/
def allRows (t : Table) : List (List String) :=
  (match t.thead with | some h => h | none => []) ++ t.body

/-- The header texts of one table (bot.py lines 51-55): the first up to 20
cells found under the head section if one exists, else under the whole
table; if that yields nothing, the cells of the first row of the table,
uncapped; `[]` when both fail. -/
def headerTexts (t : Table) : List String :=
  let ths :=
    match t.thead with
    | some hrows => hrows.flatten.take 20
    | none => t.body.flatten.take 20
  if ths.isEmpty then
    match (allRows t).head? with
    | some fr => fr
    | none => []
  else ths

/-- One pre-normalization record: the raw cell strings picked per field. -/
structure RawRecord where
  ticker : String
  name : String
  company : String
  type : String
  filing_date : String
  transaction_date : String
deriving DecidableEq, Repr

/-- `max(cmap.values())` (bot.py line 62), on the resolved indices.  It is
only consulted for tables whose ticker field resolved, so the unresolved
fields (the -1 entries of the source) never carry the maximum. -/
def maxIdx (m : Field → Option Nat) : Nat :=
  fieldList.foldl (fun acc f => match m f with | some i => max acc i | none => acc) 0

/-- `pick` (bot.py line 67): the cell at the field's resolved index, or the
empty string when the field is unresolved or the row too short. -/
def pickCell (m : Field → Option Nat) (r : List String) (f : Field) : String :=
  match m f with
  | some i => r.getD i ""
  | none => ""

/-- Rows-to-record step of bot.py lines 68-75 for a single row. -/
def rawOfRow (m : Field → Option Nat) (r : List String) : RawRecord :=
  { ticker := pickCell m r .ticker
    name := pickCell m r .name
    company := pickCell m r .company
    type := pickCell m r .type
    filing_date := pickCell m r .filing_date
    transaction_date := pickCell m r .transaction_date }

/-- The per-table part of `_extract_from_html` (bot.py lines 50-76): resolve
headers, skip the table when headers are missing or a required field is
unresolved, keep rows long enough for every resolved index, drop a repeated
header row, and build one raw record per remaining row. -/
def tableRaw (t : Table) : List RawRecord :=
  let ths := headerTexts t
  if ths.isEmpty then []
  else
    let cmap := guessHeaderMap ths
    if (cmap .ticker).isNone || (cmap .name).isNone || (cmap .type).isNone then []
    else
      let rows0 := (allRows t).filter (fun r => maxIdx cmap < r.length)
      let rows1 :=
        match rows0 with
        | r0 :: rest => if r0.map lowStr = ths.map lowStr then rest else rows0
        | [] => []
      if rows1.isEmpty then [] else rows1.map (rawOfRow cmap)

/-- The row-wise cleaning of bot.py lines 81-85 on one raw record. -/
def cleanRaw (r : RawRecord) : Record :=
  let ty := strip r.type
  { ticker := cleanTicker r.ticker
    name := strip r.name
    company := strip r.company
    type := ty
    filing_date := parseDate r.filing_date
    transaction_date := parseDate r.transaction_date
    is_buy := containsBuy ty
    is_sell := containsSell ty }

/-- `drop_duplicates` (bot.py lines 87 and 143): keep the first occurrence
of every value. -/
def dropDupAux [DecidableEq α] : List α → List α → List α
  | [], _ => []
  | x :: xs, seen =>
    if x ∈ seen then dropDupAux xs seen else x :: dropDupAux xs (x :: seen)

def dropDupFirst [DecidableEq α] (l : List α) : List α :=
  dropDupAux l []

/-- `_extract_from_html` on a parsed document (bot.py lines 47-87): collect
the raw records of every qualifying table in order, clean them row-wise,
keep only records with a non-empty cleaned ticker and a parsed filing date,
and drop exact duplicates. -/
def extractFromHtml (doc : List Table) : List Record :=
  let recs := ((doc.map tableRaw).flatten).map cleanRaw
  dropDupFirst (recs.filter (fun r => r.ticker != "" && r.filing_date.isSome))

/-! ### Fallback-dataset normalization (`load_public_fallback`,
bot.py lines 117-143)

A fallback JSON array is a list of mappings; each mapping is embedded as an
association list from key to cell string.  The dataframe built from such a
list has one column per key occurring in at least one element; an element
without that key holds a missing value (NaN) there, which `astype(str)`
renders as the lowercase nan string and `pd.to_datetime` coerces to null.
Reading a column that exists in no element raises a `KeyError`, and reading
a column name that several source columns were renamed to fails as well;
the embedding returns `Except.error` in those cases. -/

/-- One fallback JSON element: a mapping from key to cell string. -/
abbrev FallbackRow := List (String × String)

/-- Dictionary lookup; `none` models a missing key (NaN cell). -/
def lookupKey (k : String) : FallbackRow → Option String
  | [] => none
  | (k2, v) :: rest => if k2 == k then some v else lookupKey k rest

/-- The distinct column names of the dataframe built from the array. -/
def fallbackColumns (rows : List FallbackRow) : List String :=
  ((rows.map (fun r => r.map Prod.fst)).flatten).dedup

/-- The column rename of bot.py lines 132-137. -/
def renameCol (k : String) : String :=
  if k == "disclosure_date" then "filing_date"
  else if k == "senator" then "name"
  else if k == "representative" then "name"
  else if k == "asset_description" then "company"
  else k

/-- Access to one canonical column after the rename: the unique source key
renamed to it.  No such key models the `KeyError` of reading an absent
column; several such keys model the failure on a duplicated column label. -/
def getKey (cols : List String) (c : String) : Except String String :=
  match cols.filter (fun k => renameCol k == c) with
  | [k] => Except.ok k
  | [] => Except.error ("KeyError: " ++ c)
  | _ => Except.error ("duplicate column: " ++ c)

/-- The per-element cleaning of bot.py lines 138-142, given the source key
of each canonical column. -/
def fallbackRec (r : FallbackRow) (kf kt kti kn kc kty : String) : Record :=
  let ty := strip (asStr (lookupKey kty r))
  { ticker := cleanTicker (asStr (lookupKey kti r))
    name := strip (asStr (lookupKey kn r))
    company := strip (asStr (lookupKey kc r))
    type := ty
    filing_date := (lookupKey kf r).bind parseDate
    transaction_date := (lookupKey kt r).bind parseDate
    is_buy := containsBuy ty
    is_sell := containsSell ty }

/-- `load_public_fallback` on the concatenated array elements (bot.py lines
131-143): rename the columns, clean each column — failing exactly when a
consulted column is absent or duplicated, in the column order of the source
— then keep records with non-empty ticker and non-null filing date, and
drop exact duplicates. -/
def load_public_fallback (rows : List FallbackRow) : Except String (List Record) :=
  let cols := fallbackColumns rows
  match getKey cols "filing_date", getKey cols "transaction_date",
        getKey cols "ticker", getKey cols "name", getKey cols "company",
        getKey cols "type" with
  | .ok kf, .ok kt, .ok kti, .ok kn, .ok kc, .ok kty =>
    let recs := rows.map (fun r => fallbackRec r kf kt kti kn kc kty)
    .ok (dropDupFirst (recs.filter (fun r => r.ticker != "" && r.filing_date.isSome)))
  | .error e, _, _, _, _, _ => .error e
  | _, .error e, _, _, _, _ => .error e
  | _, _, .error e, _, _, _ => .error e
  | _, _, _, .error e, _, _ => .error e
  | _, _, _, _, .error e, _ => .error e
  | _, _, _, _, _, .error e => .error e

/-! ### Concrete fixtures -/

/-- A qualifying table: resolvable headers in a head section, one data row. -/
def tblGood : Table :=
  { thead := some [["Ticker", "Politician", "Type", "Filing Date"]]
    body := [["AAPL", "Jane Doe", "Buy", "2024-01-05"]] }

/-- The record extracted from `tblGood`. -/
def recGood : Record :=
  { ticker := "AAPL", name := "Jane Doe", company := "", type := "Buy"
    filing_date := some 20240105, transaction_date := none
    is_buy := true, is_sell := false }

/-- A table whose headers resolve neither ticker nor filing date. -/
def tblBad : Table :=
  { thead := some [["Politician", "Type"]]
    body := [["Jane Doe", "Buy"]] }

/-- A fallback element carrying every expected key. -/
def rowFb : FallbackRow :=
  [("ticker", "AAPL"), ("type", "Purchase"), ("disclosure_date", "2024-01-05"),
   ("transaction_date", "2024-01-03"), ("senator", "Jane Doe"),
   ("asset_description", "Apple Inc")]

/-- The record normalized from `rowFb`. -/
def recFb : Record :=
  { ticker := "AAPL", name := "Jane Doe", company := "Apple Inc"
    type := "Purchase", filing_date := some 20240105
    transaction_date := some 20240103, is_buy := true, is_sell := false }

example : extractFromHtml [tblGood] = [recGood] := by decide
example : extractFromHtml [tblBad] = [] := by decide
example : extractFromHtml [tblBad, tblGood] = [recGood] := by decide
example : load_public_fallback [rowFb] = Except.ok [recFb] := rfl
example : load_public_fallback [[("ticker", "AAPL")]] =
    Except.error "KeyError: filing_date" := rfl

/-! ### Invariant and error-handling claims on the two pipelines -/

theorem mem_of_mem_dropDupAux [DecidableEq α] {x : α} :
    ∀ {l seen : List α}, x ∈ dropDupAux l seen → x ∈ l := by
  intro l
  induction l with
  | nil => intro seen h; simp [dropDupAux] at h
  | cons a t ih =>
    intro seen h
    simp only [dropDupAux] at h
    by_cases ha : a ∈ seen
    · rw [if_pos ha] at h
      exact List.mem_cons_of_mem a (ih h)
    · rw [if_neg ha] at h
      rcases List.mem_cons.mp h with h | h
      · simp [h]
      · exact List.mem_cons_of_mem a (ih h)

theorem mem_of_mem_dropDupFirst [DecidableEq α] {x : α} {l : List α}
    (h : x ∈ dropDupFirst l) : x ∈ l :=
  mem_of_mem_dropDupAux h

theorem keep_of_mem_clean {r : Record} {l : List Record}
    (h : r ∈ dropDupFirst
      (l.filter (fun r => r.ticker != "" && r.filing_date.isSome))) :
    r.ticker ≠ "" ∧ r.filing_date ≠ none := by
  have hq := List.of_mem_filter (mem_of_mem_dropDupFirst h)
  simp only [Bool.and_eq_true, bne_iff_ne, ne_eq] at hq
  exact ⟨hq.1, Option.isSome_iff_ne_none.mp hq.2⟩

/-- C3: every record of the canonical dataset has a non-empty ticker and a
non-null filing date, both for the scraped pipeline and for a fallback
normalization that returns a dataset. -/
theorem C3_canonical_invariant :
    (∀ (doc : List Table), ∀ r ∈ extractFromHtml doc,
      r.ticker ≠ "" ∧ r.filing_date ≠ none) ∧
    (∀ (rows : List FallbackRow) (recs : List Record),
      load_public_fallback rows = Except.ok recs →
      ∀ r ∈ recs, r.ticker ≠ "" ∧ r.filing_date ≠ none) := by
  constructor
  · intro doc r hr
    exact keep_of_mem_clean hr
  · intro rows recs hok r hr
    simp only [load_public_fallback] at hok
    split at hok
    · rw [Except.ok.injEq] at hok
      subst hok
      exact keep_of_mem_clean hr
    all_goals exact absurd hok (by simp)

/-- C3 witness at concrete inputs of both pipelines. -/
theorem C3_witness :
    (recGood.ticker ≠ "" ∧ recGood.filing_date ≠ none) ∧
    (recFb.ticker ≠ "" ∧ recFb.filing_date ≠ none) :=
  ⟨C3_canonical_invariant.1 [tblGood] recGood (by decide),
   C3_canonical_invariant.2 [rowFb] [recFb] rfl recFb (by decide)⟩

theorem tableRaw_eq_nil {t : Table}
    (h : guessHeaderMap (headerTexts t) .ticker = none ∨
         guessHeaderMap (headerTexts t) .name = none ∨
         guessHeaderMap (headerTexts t) .type = none) :
    tableRaw t = [] := by
  unfold tableRaw
  by_cases hths : (headerTexts t).isEmpty
  · simp [hths]
  · have hb : ((guessHeaderMap (headerTexts t) .ticker).isNone ||
        (guessHeaderMap (headerTexts t) .name).isNone ||
        (guessHeaderMap (headerTexts t) .type).isNone) = true := by
      rcases h with h | h | h <;> simp [h]
    simp [hths, hb]

/-- C6: a table whose resolved header map lacks one of the required fields
contributes no record: deleting it from the document leaves the extracted
dataset unchanged, so the other tables are still emitted. -/
theorem C6_missing_required_field (d1 d2 : List Table) (t : Table)
    (h : guessHeaderMap (headerTexts t) .ticker = none ∨
         guessHeaderMap (headerTexts t) .name = none ∨
         guessHeaderMap (headerTexts t) .type = none) :
    extractFromHtml (d1 ++ t :: d2) = extractFromHtml (d1 ++ d2) := by
  unfold extractFromHtml
  rw [List.map_append, List.map_cons, List.map_append, List.flatten_append,
    List.flatten_cons, List.flatten_append, tableRaw_eq_nil h,
    List.nil_append]

/-- C6 witness: the concrete bad table contributes nothing next to a
qualifying one. -/
theorem C6_witness :
    extractFromHtml [tblBad, tblGood] = extractFromHtml [tblGood] :=
  C6_missing_required_field [] [tblGood] tblBad (Or.inl (by decide))

/-- C8 counterexample, refuting both halves of the claim: a table without a
head section takes its header texts from the first cells of the whole table,
not from its first row — here the cells of both rows appear — and a table
whose head section holds no cell takes the whole first row, 21 cells here,
so more than 20 header cells are taken. -/
theorem C8_counterexample :
    headerTexts
        { thead := none, body := [["Ticker", "Politician"], ["Type", "Filing"]] } =
      ["Ticker", "Politician", "Type", "Filing"] ∧
    ["Ticker", "Politician", "Type", "Filing"] ≠ ["Ticker", "Politician"] ∧
    headerTexts { thead := some [], body := [List.replicate 21 "c"] } =
      List.replicate 21 "c" ∧
    (headerTexts { thead := some [], body := [List.replicate 21 "c"] }).length
      = 21 ∧
    ¬ (21 : Nat) ≤ 20 :=
  ⟨by decide, by decide, by decide, by decide, by decide⟩

/-- C8 (amended): with a head section holding at least one cell, the header
texts are the first at most 20 cells of the head section; without a head
section they are the first at most 20 cells of the whole table (not of the
first row); with a head section holding no cell, they are the cells of the
table's first row, without the 20-cell cap; a table yielding no header texts
emits no record. -/
theorem C8_header_texts (t : Table) :
    (t.thead = none → headerTexts t = t.body.flatten.take 20) ∧
    (∀ hr, t.thead = some hr → hr.flatten ≠ [] →
      headerTexts t = hr.flatten.take 20) ∧
    (∀ hr, t.thead = some hr → hr.flatten = [] →
      headerTexts t = ((allRows t).head?).getD []) ∧
    (headerTexts t = [] → tableRaw t = []) := by
  refine ⟨?_, ?_, ?_, ?_⟩
  · intro hn
    unfold headerTexts
    rw [hn]
    by_cases hb : t.body.flatten.take 20 = []
    · have hfl : t.body.flatten = [] := by
        rcases List.take_eq_nil_iff.mp hb with h | h
        · omega
        · exact h
      rw [hb]
      simp only [List.isEmpty_nil, if_true]
      unfold allRows
      rw [hn, List.nil_append]
      cases hh : t.body.head? with
      | none => rfl
      | some fr =>
        have : fr = [] :=
          List.flatten_eq_nil_iff.mp hfl fr (List.mem_of_mem_head? hh)
        simp [this]
    · simp only [List.isEmpty_iff, hb, if_false]
  · intro hr hsome hne
    unfold headerTexts
    rw [hsome]
    have hth : hr.flatten.take 20 ≠ [] := by
      intro hc
      rcases List.take_eq_nil_iff.mp hc with h' | h'
      · omega
      · exact hne h'
    simp only [List.isEmpty_iff, hth, if_false]
  · intro hr hsome hfl
    unfold headerTexts
    rw [hsome]
    simp only [hfl, List.take_nil, List.isEmpty_nil, if_true]
    cases hh : (allRows t).head? with
    | none => simp [hh]
    | some fr => simp [hh]
  · intro h
    unfold tableRaw
    simp [h]

/-- C8 witness: all four amended cases at concrete tables, the cell-less
head section exercised with an uncapped 21-cell first row. -/
theorem C8_witness :
    headerTexts { thead := none, body := [["A", "B"], ["C"]] } = ["A", "B", "C"] ∧
    headerTexts { thead := some [["H1"], ["H2"]], body := [["x"]] } = ["H1", "H2"] ∧
    headerTexts { thead := some [], body := [List.replicate 21 "c"] } =
      List.replicate 21 "c" ∧
    tableRaw { thead := some [[]], body := [] } = [] :=
  ⟨(C8_header_texts _).1 rfl,
   (C8_header_texts _).2.1 [["H1"], ["H2"]] rfl (by decide),
   (C8_header_texts _).2.2.1 [] rfl rfl,
   (C8_header_texts _).2.2.2 (by decide)⟩

/-- C9 counterexample: a fallback array whose single element misses the
disclosure-date key makes normalization fail with a key error, because the
renamed dataframe has no filing-date column at all. -/
theorem C9_counterexample :
    load_public_fallback [[("ticker", "AAPL")]] =
      Except.error "KeyError: filing_date" := rfl

/-- C9 (amended): when every canonical column arises from exactly one key
occurring somewhere in the batch, fallback normalization succeeds — keys
missing from individual elements are treated as missing cells, never an
error. -/
theorem C9_fallback_total (rows : List FallbackRow)
    (h : ∀ c ∈ ["filing_date", "transaction_date", "ticker", "name",
        "company", "type"],
      ((fallbackColumns rows).filter (fun k => renameCol k == c)).length = 1) :
    ∃ recs, load_public_fallback rows = Except.ok recs := by
  obtain ⟨k1, hk1⟩ := List.length_eq_one.mp (h "filing_date" (by simp))
  obtain ⟨k2, hk2⟩ := List.length_eq_one.mp (h "transaction_date" (by simp))
  obtain ⟨k3, hk3⟩ := List.length_eq_one.mp (h "ticker" (by simp))
  obtain ⟨k4, hk4⟩ := List.length_eq_one.mp (h "name" (by simp))
  obtain ⟨k5, hk5⟩ := List.length_eq_one.mp (h "company" (by simp))
  obtain ⟨k6, hk6⟩ := List.length_eq_one.mp (h "type" (by simp))
  have hres : load_public_fallback rows =
      Except.ok (dropDupFirst
        ((rows.map (fun r => fallbackRec r k1 k2 k3 k4 k5 k6)).filter
          (fun r => r.ticker != "" && r.filing_date.isSome))) := by
    simp only [load_public_fallback, getKey, hk1, hk2, hk3, hk4, hk5, hk6]
  exact ⟨_, hres⟩

/-- C9 witness: a batch whose second element misses every key but the ticker
is normalized without error. -/
theorem C9_witness :
    ∃ recs, load_public_fallback [rowFb, [("ticker", "MSFT")]] = Except.ok recs :=
  C9_fallback_total [rowFb, [("ticker", "MSFT")]] (by decide)

/-! ### Sorting

`sort_values` and Python `sorted` are embedded as insertion sort by a
boolean comparator; any sort is a faithful model of the source here since
the spec itself fixes only the resulting order, not the algorithm. -/

def insertBy (le : α → α → Bool) (x : α) : List α → List α
  | [] => [x]
  | y :: ys => if le x y then x :: y :: ys else y :: insertBy le x ys

def sortBy (le : α → α → Bool) : List α → List α
  | [] => []
  | x :: xs => insertBy le x (sortBy le xs)

theorem mem_insertBy {le : α → α → Bool} {x y : α} :
    ∀ {l : List α}, y ∈ insertBy le x l ↔ y = x ∨ y ∈ l := by
  intro l
  induction l with
  | nil => simp [insertBy]
  | cons a t ih =>
    simp only [insertBy]
    by_cases h : le x a = true
    · rw [if_pos h]
      simp [List.mem_cons]
    · rw [if_neg h]
      simp only [List.mem_cons, ih]
      tauto

theorem mem_sortBy {le : α → α → Bool} {y : α} :
    ∀ {l : List α}, y ∈ sortBy le l ↔ y ∈ l := by
  intro l
  induction l with
  | nil => simp [sortBy]
  | cons a t ih => simp [sortBy, mem_insertBy, ih]

theorem length_insertBy (le : α → α → Bool) (x : α) :
    ∀ l : List α, (insertBy le x l).length = l.length + 1 := by
  intro l
  induction l with
  | nil => rfl
  | cons a t ih =>
    simp only [insertBy]
    by_cases h : le x a = true
    · rw [if_pos h]; rfl
    · rw [if_neg h]
      simp [ih]

theorem length_sortBy (le : α → α → Bool) :
    ∀ l : List α, (sortBy le l).length = l.length := by
  intro l
  induction l with
  | nil => rfl
  | cons a t ih =>
    simp only [sortBy]
    rw [length_insertBy, ih]
    rfl

theorem pairwise_insertBy {le : α → α → Bool}
    (htrans : ∀ a b c, le a b = true → le b c = true → le a c = true)
    (htot : ∀ a b, le a b = true ∨ le b a = true)
    {x : α} {l : List α} (h : l.Pairwise (fun a b => le a b = true)) :
    (insertBy le x l).Pairwise (fun a b => le a b = true) := by
  induction l with
  | nil => simp [insertBy]
  | cons a t ih =>
    rw [List.pairwise_cons] at h
    obtain ⟨ha, ht⟩ := h
    simp only [insertBy]
    by_cases hxa : le x a = true
    · rw [if_pos hxa, List.pairwise_cons]
      refine ⟨?_, List.pairwise_cons.mpr ⟨ha, ht⟩⟩
      intro z hz
      rcases List.mem_cons.mp hz with rfl | hz
      · exact hxa
      · exact htrans x a z hxa (ha z hz)
    · have hax : le a x = true := by
        rcases htot x a with h' | h'
        · exact absurd h' hxa
        · exact h'
      rw [if_neg hxa, List.pairwise_cons]
      refine ⟨?_, ih ht⟩
      intro z hz
      rcases mem_insertBy.mp hz with rfl | hz
      · exact hax
      · exact ha z hz

theorem pairwise_sortBy {le : α → α → Bool}
    (htrans : ∀ a b c, le a b = true → le b c = true → le a c = true)
    (htot : ∀ a b, le a b = true ∨ le b a = true) :
    ∀ l : List α, (sortBy le l).Pairwise (fun a b => le a b = true) := by
  intro l
  induction l with
  | nil => simp [sortBy]
  | cons a t ih => exact pairwise_insertBy htrans htot ih

/-- Code-point comparison of character lists: the model of Python string
ordering used by `sorted`. -/
def listLe : List Char → List Char → Bool
  | [], _ => true
  | _ :: _, [] => false
  | a :: as, b :: bs =>
    a.toNat < b.toNat || (a.toNat == b.toNat && listLe as bs)

def strLe (a b : String) : Bool := listLe a.toList b.toList

theorem listLe_total : ∀ a b : List Char, listLe a b = true ∨ listLe b a = true
  | [], _ => Or.inl rfl
  | _ :: _, [] => Or.inr rfl
  | a :: as, b :: bs => by
    simp only [listLe, Bool.or_eq_true, Bool.and_eq_true, decide_eq_true_eq,
      beq_iff_eq]
    rcases Nat.lt_trichotomy a.toNat b.toNat with h | h | h
    · exact Or.inl (Or.inl h)
    · rcases listLe_total as bs with h' | h'
      · exact Or.inl (Or.inr ⟨h, h'⟩)
      · exact Or.inr (Or.inr ⟨h.symm, h'⟩)
    · exact Or.inr (Or.inl h)

theorem listLe_trans : ∀ a b c : List Char,
    listLe a b = true → listLe b c = true → listLe a c = true
  | [], _, _ => by intro _ _; rfl
  | _ :: _, [], _ => by intro h _; simp [listLe] at h
  | _ :: _, _ :: _, [] => by intro _ h; simp [listLe] at h
  | a :: as, b :: bs, c :: cs => by
    simp only [listLe, Bool.or_eq_true, Bool.and_eq_true, decide_eq_true_eq,
      beq_iff_eq]
    rintro (h1 | ⟨h1e, h1r⟩) (h2 | ⟨h2e, h2r⟩)
    · exact Or.inl (Nat.lt_trans h1 h2)
    · exact Or.inl (h2e ▸ h1)
    · exact Or.inl (h1e ▸ h2)
    · exact Or.inr ⟨h1e.trans h2e, listLe_trans as bs cs h1r h2r⟩

theorem strLe_total (a b : String) : strLe a b = true ∨ strLe b a = true :=
  listLe_total a.toList b.toList

theorem strLe_trans (a b c : String) :
    strLe a b = true → strLe b c = true → strLe a c = true :=
  listLe_trans a.toList b.toList c.toList

/-! ### Aggregation (`group_daily` and `trend_30d`, bot.py lines 145-169) -/

/-- `sorted(set(...))` over the name column of one group (bot.py lines 152
and 165): the distinct names in code-point order.  The source lambda keeps
exactly the values of string type, and every name cell of the embedded
dataframe is a string, so no value is dropped here. -/
def sortedNames (names : List String) : List String :=
  sortBy strLe names.dedup

/-- The shared filter prefix of both aggregations (bot.py lines 146-149 and
159-161): keep records filed at or after the cutoff — a null filing date
compares false — then apply the truthy whitelist and blacklist. -/
def filterWindow (df : List Record) (since : Nat)
    (whitelist blacklist : Option (List String)) : List Record :=
  let d := df.filter (fun r =>
    match r.filing_date with
    | some fd => since ≤ fd
    | none => false)
  let d :=
    match whitelist with
    | some wl => if wl.isEmpty then d else d.filter (fun r => wl.contains r.ticker)
    | none => d
  match blacklist with
  | some bl => if bl.isEmpty then d else d.filter (fun r => !(bl.contains r.ticker))
  | none => d

/-- The group keys of `groupby("ticker")`: the distinct tickers, in sorted
order as pandas produces them. -/
def groupKeys (d : List Record) : List String :=
  sortBy strLe (d.map (fun r => r.ticker)).dedup

/-- One row of the `group_daily` aggregate (bot.py lines 150-155). -/
structure DailyRow where
  ticker : String
  trades : Nat
  politicians : List String
  buys : Nat
  sells : Nat
  people : Nat
deriving DecidableEq, Repr

/-- The aggregate row of one ticker group (bot.py lines 150-155): record
count, sorted distinct names, buy and sell counts, and the size of the name
list. -/
def dailyRowFor (d : List Record) (t : String) : DailyRow :=
  let g := d.filter (fun r => r.ticker == t)
  let pols := sortedNames (g.map (fun r => r.name))
  { ticker := t
    trades := g.length
    politicians := pols
    buys := (g.filter (fun r => r.is_buy)).length
    sells := (g.filter (fun r => r.is_sell)).length
    people := pols.length }

/-- Comparator of `sort_values(["people", "trades"], ascending=[False,
False])` (bot.py line 156). -/
def dailyLe (a b : DailyRow) : Bool :=
  b.people < a.people || (b.people == a.people && b.trades ≤ a.trades)

/-- `group_daily` (bot.py lines 145-156): the filtered window together with
the per-ticker aggregate rows sorted descending by people then trades. -/
def group_daily (df : List Record) (since : Nat)
    (whitelist blacklist : Option (List String)) :
    List Record × List DailyRow :=
  let d := filterWindow df since whitelist blacklist
  (d, sortBy dailyLe ((groupKeys d).map (dailyRowFor d)))

/-- One row of the `trend_30d` aggregate (bot.py lines 162-167). -/
structure TrendRow where
  ticker : String
  buys : Nat
  sells : Nat
  politicians : List String
  total_trades : Nat
deriving DecidableEq, Repr

/-- The trend aggregate row of one ticker group (bot.py lines 162-167). -/
def trendRowFor (d : List Record) (t : String) : TrendRow :=
  let g := d.filter (fun r => r.ticker == t)
  { ticker := t
    buys := (g.filter (fun r => r.is_buy)).length
    sells := (g.filter (fun r => r.is_sell)).length
    politicians := sortedNames (g.map (fun r => r.name))
    total_trades := (g.filter (fun r => r.is_buy)).length +
      (g.filter (fun r => r.is_sell)).length }

/-- Comparator of `sort_values(["buys", "total_trades"], ascending=[False,
False])` (bot.py line 168). -/
def trendLe (a b : TrendRow) : Bool :=
  b.buys < a.buys || (b.buys == a.buys && b.total_trades ≤ a.total_trades)

/-- `trend_30d` (bot.py lines 158-169). -/
def trend_30d (df : List Record) (since : Nat)
    (whitelist blacklist : Option (List String)) :
    List Record × List TrendRow :=
  let t := filterWindow df since whitelist blacklist
  (t, sortBy trendLe ((groupKeys t).map (trendRowFor t)))

theorem dailyLe_total (a b : DailyRow) : dailyLe a b = true ∨ dailyLe b a = true := by
  simp only [dailyLe, Bool.or_eq_true, Bool.and_eq_true, decide_eq_true_eq,
    beq_iff_eq]
  omega

theorem dailyLe_trans (a b c : DailyRow) :
    dailyLe a b = true → dailyLe b c = true → dailyLe a c = true := by
  simp only [dailyLe, Bool.or_eq_true, Bool.and_eq_true, decide_eq_true_eq,
    beq_iff_eq]
  omega

theorem trendLe_total (a b : TrendRow) : trendLe a b = true ∨ trendLe b a = true := by
  simp only [trendLe, Bool.or_eq_true, Bool.and_eq_true, decide_eq_true_eq,
    beq_iff_eq]
  omega

theorem trendLe_trans (a b c : TrendRow) :
    trendLe a b = true → trendLe b c = true → trendLe a c = true := by
  simp only [trendLe, Bool.or_eq_true, Bool.and_eq_true, decide_eq_true_eq,
    beq_iff_eq]
  omega

/-! ### Aggregation claims -/

/-- The `group_daily` row of the one-record dataset `[recGood]`. -/
def rowGoodDaily : DailyRow :=
  { ticker := "AAPL", trades := 1, politicians := ["Jane Doe"], buys := 1,
    sells := 0, people := 1 }

/-- The `trend_30d` row of the one-record dataset `[recGood]`. -/
def rowGoodTrend : TrendRow :=
  { ticker := "AAPL", buys := 1, sells := 0, politicians := ["Jane Doe"],
    total_trades := 1 }

/-- C1 (amended): every `group_daily` row carries, for its own ticker group
of the filtered window, the sorted distinct discloser names — the empty
name included when present — their number as `people`, the record count as
`trades`, and the buy and sell counts. -/
theorem C1_group_daily_rows (df : List Record) (since : Nat)
    (wl bl : Option (List String)) :
    ∀ row ∈ (group_daily df since wl bl).2,
      row.politicians =
        sortedNames (((filterWindow df since wl bl).filter
          (fun r => r.ticker == row.ticker)).map (fun r => r.name)) ∧
      row.people = row.politicians.length ∧
      row.trades =
        ((filterWindow df since wl bl).filter
          (fun r => r.ticker == row.ticker)).length ∧
      row.buys =
        (((filterWindow df since wl bl).filter
          (fun r => r.ticker == row.ticker)).filter (fun r => r.is_buy)).length ∧
      row.sells =
        (((filterWindow df since wl bl).filter
          (fun r => r.ticker == row.ticker)).filter (fun r => r.is_sell)).length := by
  intro row hrow
  simp only [group_daily] at hrow
  rw [mem_sortBy] at hrow
  obtain ⟨t, ht, rfl⟩ := List.mem_map.mp hrow
  exact ⟨rfl, rfl, rfl, rfl, rfl⟩

/-- A canonical record whose discloser name is the empty string. -/
def recEmptyName : Record :=
  { ticker := "AAPL", name := "", company := "", type := "Buy"
    filing_date := some 100, transaction_date := none
    is_buy := true, is_sell := false }

/-- The politicians column as claim C1 words it: the sorted distinct
non-empty names of the group. -/
def specDailyPoliticians (g : List Record) : List String :=
  sortedNames ((g.map (fun r => r.name)).filter (fun n => n != ""))

/-- C1 counterexample: a window holding one record with an empty discloser
name yields a row whose politicians list is the singleton empty string and
whose people count is 1, while the claim's sorted distinct non-empty names
are `[]` of size 0 — the code never drops empty names, only non-strings. -/
theorem C1_counterexample :
    (group_daily [recEmptyName] 0 none none).2 =
      [{ ticker := "AAPL", trades := 1, politicians := [""], buys := 1,
         sells := 0, people := 1 }] ∧
    specDailyPoliticians [recEmptyName] = [] ∧
    ([""] : List String) ≠ [] ∧ (1 : Nat) ≠ 0 :=
  ⟨by decide, by decide, by decide, by decide⟩

/-- C1 witness at a one-record dataset. -/
theorem C1_witness :
    rowGoodDaily.politicians =
      sortedNames (((filterWindow [recGood] 0 none none).filter
        (fun r => r.ticker == rowGoodDaily.ticker)).map (fun r => r.name)) ∧
    rowGoodDaily.people = rowGoodDaily.politicians.length ∧
    rowGoodDaily.trades =
      ((filterWindow [recGood] 0 none none).filter
        (fun r => r.ticker == rowGoodDaily.ticker)).length ∧
    rowGoodDaily.buys =
      (((filterWindow [recGood] 0 none none).filter
        (fun r => r.ticker == rowGoodDaily.ticker)).filter
        (fun r => r.is_buy)).length ∧
    rowGoodDaily.sells =
      (((filterWindow [recGood] 0 none none).filter
        (fun r => r.ticker == rowGoodDaily.ticker)).filter
        (fun r => r.is_sell)).length :=
  C1_group_daily_rows [recGood] 0 none none rowGoodDaily (by decide)

/-- C4: the `group_daily` rows are sorted with people non-increasing and,
at equal people, trades non-increasing. -/
theorem C4_group_daily_sorted (df : List Record) (since : Nat)
    (wl bl : Option (List String)) :
    List.Chain' (fun a b : DailyRow => b.people ≤ a.people ∧
      (a.people = b.people → b.trades ≤ a.trades))
      (group_daily df since wl bl).2 := by
  have hp := pairwise_sortBy dailyLe_trans dailyLe_total
    ((groupKeys (filterWindow df since wl bl)).map
      (dailyRowFor (filterWindow df since wl bl)))
  simp only [group_daily]
  refine List.Pairwise.chain' (hp.imp ?_)
  intro a b hab
  simp only [dailyLe, Bool.or_eq_true, Bool.and_eq_true, decide_eq_true_eq,
    beq_iff_eq] at hab
  omega

/-- C5: every `trend_30d` row has total equal to buys plus sells, and the
rows are sorted with buys non-increasing and, at equal buys, total
non-increasing. -/
theorem C5_trend_total_and_sorted (df : List Record) (since : Nat)
    (wl bl : Option (List String)) :
    (∀ row ∈ (trend_30d df since wl bl).2,
      row.total_trades = row.buys + row.sells) ∧
    List.Chain' (fun a b : TrendRow => b.buys ≤ a.buys ∧
      (a.buys = b.buys → b.total_trades ≤ a.total_trades))
      (trend_30d df since wl bl).2 := by
  constructor
  · intro row hrow
    simp only [trend_30d] at hrow
    rw [mem_sortBy] at hrow
    obtain ⟨t, ht, rfl⟩ := List.mem_map.mp hrow
    rfl
  · have hp := pairwise_sortBy trendLe_trans trendLe_total
      ((groupKeys (filterWindow df since wl bl)).map
        (trendRowFor (filterWindow df since wl bl)))
    simp only [trend_30d]
    refine List.Pairwise.chain' (hp.imp ?_)
    intro a b hab
    simp only [trendLe, Bool.or_eq_true, Bool.and_eq_true, decide_eq_true_eq,
      beq_iff_eq] at hab
    omega

/-- C5 witness at a one-record dataset. -/
theorem C5_witness :
    rowGoodTrend.total_trades = rowGoodTrend.buys + rowGoodTrend.sells :=
  (C5_trend_total_and_sorted [recGood] 0 none none).1 rowGoodTrend (by decide)

/-- C10: every `group_daily` row has buys, sells and people bounded by its
trades, and at least one trade. -/
theorem C10_group_daily_bounds (df : List Record) (since : Nat)
    (wl bl : Option (List String)) :
    ∀ row ∈ (group_daily df since wl bl).2,
      row.buys ≤ row.trades ∧ row.sells ≤ row.trades ∧
      row.people ≤ row.trades ∧ 1 ≤ row.trades := by
  intro row hrow
  simp only [group_daily] at hrow
  rw [mem_sortBy] at hrow
  obtain ⟨t, ht, rfl⟩ := List.mem_map.mp hrow
  refine ⟨List.length_filter_le _ _, List.length_filter_le _ _, ?_, ?_⟩
  · show (sortBy strLe (((filterWindow df since wl bl).filter
        (fun r => r.ticker == t)).map (fun r => r.name)).dedup).length ≤ _
    rw [length_sortBy]
    calc (((filterWindow df since wl bl).filter
          (fun r => r.ticker == t)).map (fun r => r.name)).dedup.length
        ≤ (((filterWindow df since wl bl).filter
          (fun r => r.ticker == t)).map (fun r => r.name)).length :=
          (List.dedup_sublist _).length_le
      _ = ((filterWindow df since wl bl).filter
          (fun r => r.ticker == t)).length := List.length_map _ _
  · show 1 ≤ ((filterWindow df since wl bl).filter
      (fun r => r.ticker == t)).length
    simp only [groupKeys] at ht
    rw [mem_sortBy] at ht
    obtain ⟨r, hrd, hrt⟩ := List.mem_map.mp (List.mem_dedup.mp ht)
    have hrg : r ∈ (filterWindow df since wl bl).filter
        (fun r => r.ticker == t) :=
      List.mem_filter.mpr ⟨hrd, by simp [hrt]⟩
    have := List.length_pos.mpr (List.ne_nil_of_mem hrg)
    omega

/-- C10 witness at a one-record dataset. -/
theorem C10_witness :
    rowGoodDaily.buys ≤ rowGoodDaily.trades ∧
    rowGoodDaily.sells ≤ rowGoodDaily.trades ∧
    rowGoodDaily.people ≤ rowGoodDaily.trades ∧ 1 ≤ rowGoodDaily.trades :=
  C10_group_daily_bounds [recGood] 0 none none rowGoodDaily (by decide)

end CongressBot
